import Mathlib

/-!
Verification of the CVPR 2024 conference-paper scraper
(`src/scrape_cvpr/cvpr2024_scraper.py`) against its natural-language
specification.  The scraper's record model, listing-pass extraction,
detail-page enrichment and CSV export are embedded shallowly below;
Python strings are modelled as `String` (with `List Char` views for the
string algorithms), Python dicts with optional keys as structures with
`Option` fields, and the fallible page fetcher as a function into
`Option`.
-/

namespace CVPRScraper

/-- Python truthiness of a string: `if s:` is true iff `s` is non-empty. -/
def strTruthy (s : String) : Bool := !s.toList.isEmpty

/-- Python truthiness of `d.get(k)` for an optional string entry:
`None` and the empty string are falsy. -/
def truthyOpt : Option String → Bool
  | none => false
  | some s => strTruthy s

/-- Python `str.strip()`: drop leading and trailing whitespace (char-list view). -/
def pyStrip (l : List Char) : List Char :=
  ((l.dropWhile Char.isWhitespace).reverse.dropWhile Char.isWhitespace).reverse

/-- Everything after the first occurrence of `pat` in `s`
(`s.split(pat, 1)[-1]` when `pat in s`), or `none` when `pat` does not
occur.  Intended for non-empty `pat`. -/
def afterFirst (pat : List Char) : List Char → Option (List Char)
  | [] => none
  | c :: rest =>
    if pat.isPrefixOf (c :: rest) then some ((c :: rest).drop pat.length)
    else afterFirst pat rest

/-- Python `s.split(',')` on the char-list view: split at every comma,
keeping empty chunks. -/
def splitComma : List Char → List (List Char)
  | [] => [[]]
  | c :: rest =>
    if c = ',' then [] :: splitComma rest
    else
      match splitComma rest with
      | [] => [[c]]
      | g :: gs => (c :: g) :: gs

/-- Python `s.split('; ')` on the char-list view: split at every
(leftmost, non-overlapping) occurrence of the two-character separator. -/
def splitSemiSp : List Char → List (List Char)
  | [] => [[]]
  | [c] => [[c]]
  | c1 :: c2 :: rest =>
    if c1 = ';' ∧ c2 = ' ' then [] :: splitSemiSp rest
    else
      match splitSemiSp (c2 :: rest) with
      | [] => [[c1]]
      | g :: gs => (c1 :: g) :: gs

/-- Python `'; '.join(chunks)` on the char-list view. -/
def joinSemiSp : List (List Char) → List Char
  | [] => []
  | [a] => a
  | a :: b :: rest => a ++ ';' :: ' ' :: joinSemiSp (b :: rest)

/-- `true` iff the two-character separator `"; "` does not occur in `l`. -/
def noSemiSp : List Char → Bool
  | [] => true
  | [_] => true
  | c1 :: c2 :: rest => !(c1 == ';' && c2 == ' ') && noSemiSp (c2 :: rest)

/-- Python `s.replace(pat, repl)` on the char-list view: replace every
leftmost, non-overlapping occurrence of `pat` by `repl`.  (The `pat = []`
case is unused by the scraper and returns `s`.) -/
def replaceSeq (pat repl : List Char) (s : List Char) : List Char :=
  match pat, s with
  | [], _ => s
  | _ :: _, [] => []
  | p :: ps, c :: rest =>
    if (p :: ps).isPrefixOf (c :: rest) then
      repl ++ replaceSeq (p :: ps) repl (rest.drop ps.length)
    else
      c :: replaceSeq (p :: ps) repl rest
termination_by s.length
decreasing_by
  · simp only [List.length_cons]
    have := List.length_drop ps.length rest
    omega
  · simp only [List.length_cons]
    omega

/-- Python `s.replace(pat, repl)` on `String`s. -/
def pyReplace (s pat repl : String) : String :=
  String.mk (replaceSeq pat.toList repl.toList s.toList)

/-- Replace only the first occurrence of `pat` by `repl` (used by the
specification-side transform of C4, which speaks of replacing a single
path segment). -/
def replaceFirstSeq (pat repl : List Char) : List Char → List Char
  | [] => []
  | c :: rest =>
    if pat.isPrefixOf (c :: rest) then repl ++ (c :: rest).drop pat.length
    else c :: replaceFirstSeq pat repl rest

/-- `true` iff `a` and `b` disagree at some position below both lengths:
then `a` can never be a prefix of `b ++ anything`. -/
def mismatchWithin : List Char → List Char → Bool
  | _, [] => false
  | [], _ => false
  | a :: as, b :: bs => a != b || mismatchWithin as bs

/-- `true` iff at every start position inside `pre` the pattern `pat`
mismatches already within `pre`; then no occurrence of `pat` in
`pre ++ rest` can start inside `pre`, whatever `rest` is. -/
def cleanFor (pat : List Char) : List Char → Bool
  | [] => true
  | c :: l => mismatchWithin pat (c :: l) && cleanFor pat l

/-- Lower-case a char-list (model of case-insensitive regex matching). -/
def lowerL (l : List Char) : List Char := l.map Char.toLower

/-! ## Data model

An HTML anchor is modelled by its (stripped) visible text and its
`href` attribute (an anchor without `href` carries `""`, which no
pattern of the scraper matches). -/

structure Anchor where
  text : String
  href : String
deriving Repr, DecidableEq

/-- A `<dt>` title node: its anchors in document order
(`find('a')` returns the first) and its whole stripped text. -/
structure DtElem where
  anchors : List Anchor
  text : String
deriving Repr, DecidableEq

/-- A `<dd>` detail node: its anchors in document order and its whole
stripped text. -/
structure DdElem where
  anchors : List Anchor
  text : String
deriving Repr, DecidableEq

/-- One listing entry: a `<dt>` together with its immediately following
sibling `<dd>`, when present.  `soup.find_all('dt')` enumerates the
first components in document order. -/
abbrev Entry := DtElem × Option DdElem

/-- A parsed detail page: the text of `find('div', id='abstract')` when
that div exists, the text of the first div whose class matches
`abstract` case-insensitively, and the page's anchors in document
order. -/
structure DetailPage where
  abstractById : Option String
  abstractByClass : Option String
  anchors : List Anchor
deriving Repr, DecidableEq

/-- The paper dict built by `extract_paper_info`: every key is optional
(`none` models key absence).  `paperUrl` is the transient `_paper_url`. -/
structure PaperInfo where
  title : Option String := none
  paperUrl : Option String := none
  authors : Option (List String) := none
  pdf_url : Option String := none
  supplementary_url : Option String := none
  abstract : Option String := none
deriving Repr, DecidableEq

/-- The base URL every relative link is resolved against. -/
def siteBase : String := "https://openaccess.thecvf.com/"

/-- Model of `urllib.parse.urljoin(siteBase, href)` for the cases the
scraper meets: absolute URLs pass through, site-absolute paths are
attached to the host, everything else to the base. -/
def urljoin (base href : String) : String :=
  if href.startsWith "http://" ∨ href.startsWith "https://" then href
  else if href.startsWith "/" then "https://openaccess.thecvf.com" ++ href
  else base ++ href

/-- `re.search(r'\.pdf$', href)`: the href ends in `.pdf`. -/
def isPdfHref (href : String) : Bool := ".pdf".toList.isSuffixOf href.toList

/-- `re.search(r'supplemental|supplementary', href, re.I)`:
one of the two words occurs in the href, case-insensitively. -/
def isSuppHref (href : String) : Bool :=
  (afterFirst "supplemental".toList (lowerL href.toList)).isSome ||
  (afterFirst "supplementary".toList (lowerL href.toList)).isSome

def lblAuthors : List Char := "Authors:".toList
def lblAuthor : List Char := "Author:".toList
def lblBy : List Char := "By:".toList

/-- Lines 78-82: for the first of the labels `Authors:`, `Author:`,
`By:` that occurs anywhere in the text, keep only what follows its
first occurrence and strip it; otherwise keep the text unchanged. -/
def stripLabel (t : List Char) : List Char :=
  match afterFirst lblAuthors t with
  | some r => pyStrip r
  | none =>
    match afterFirst lblAuthor t with
    | some r => pyStrip r
    | none =>
      match afterFirst lblBy t with
      | some r => pyStrip r
      | none => t

/-- `[a.strip() for a in t.split(',')]` on the char-list view. -/
def commaNames (t : List Char) : List String :=
  (splitComma t).map (fun a => String.mk (pyStrip a))

/-- Lines 77-86, no-links fallback: label-strip the `<dd>` text, and if
the remainder is non-empty split it on commas, stripping each piece. -/
def extractAuthorsFromText (text : String) : Option (List String) :=
  let t := stripLabel text.toList
  if t.isEmpty then none
  else some (commaNames t)

/-! ## `extract_paper_info` (lines 47-106)

The wrapper element built in `scrape_papers` holds the `<dt>` and,
when present, its sibling `<dd>`; the four dict-building steps below
mirror the four blocks of the Python function, in order. -/

/-- Lines 52-66: title from the first `<dt>` anchor's text when an
anchor exists (stashing `_paper_url` when its href is truthy), else
from the `<dt>`'s own text when that is truthy. -/
def titleInfo (dt : DtElem) : PaperInfo :=
  match dt.anchors.head? with
  | some link =>
    let ia : PaperInfo := { title := some link.text }
    if strTruthy link.href then { ia with paperUrl := some (urljoin siteBase link.href) }
    else ia
  | none =>
    if strTruthy dt.text then { title := some dt.text } else {}

/-- Lines 68-86: authors from the `<dd>`'s anchors when any exist, else
from its comma-split, label-stripped text. -/
def withAuthors (dd : Option DdElem) (i : PaperInfo) : PaperInfo :=
  match dd with
  | some d =>
    if d.anchors.isEmpty then
      match extractAuthorsFromText d.text with
      | some as => { i with authors := some as }
      | none => i
    else { i with authors := some (d.anchors.map Anchor.text) }
  | none => i

/-- Anchors of the wrapper element, in document order. -/
def anchorsOf (dt : DtElem) (dd : Option DdElem) : List Anchor :=
  dt.anchors ++ (match dd with | some d => d.anchors | none => [])

/-- Lines 88-93: first wrapper anchor whose href ends in `.pdf`. -/
def withPdf (allA : List Anchor) (i : PaperInfo) : PaperInfo :=
  match allA.find? (fun a => isPdfHref a.href) with
  | some a =>
    if strTruthy a.href then { i with pdf_url := some (urljoin siteBase a.href) } else i
  | none => i

/-- Lines 95-100: first wrapper anchor whose href mentions
supplemental material. -/
def withSupp (allA : List Anchor) (i : PaperInfo) : PaperInfo :=
  match allA.find? (fun a => isSuppHref a.href) with
  | some a =>
    if strTruthy a.href then { i with supplementary_url := some (urljoin siteBase a.href) } else i
  | none => i

/-- Lines 47-106: the whole extraction; the dict is returned only when
its `title` entry is truthy (line 102). -/
def extract_paper_info (dt : DtElem) (dd : Option DdElem) : Option PaperInfo :=
  let i := withSupp (anchorsOf dt dd) (withPdf (anchorsOf dt dd) (withAuthors dd (titleInfo dt)))
  if truthyOpt i.title then some i else none

/-! ## Listing pass of `scrape_papers` (lines 121-148) -/

/-- The loop of lines 125-148: walk the `<dt>` entries in document
order, breaking as soon as the accumulated list has reached
`maxPapers`, appending each successfully extracted record. -/
def scrapeLoop (maxPapers : Nat) : List Entry → List PaperInfo → List PaperInfo
  | [], papers => papers
  | e :: rest, papers =>
    if maxPapers ≤ papers.length then papers
    else
      match extract_paper_info e.1 e.2 with
      | some p => scrapeLoop maxPapers rest (papers ++ [p])
      | none => scrapeLoop maxPapers rest papers

/-- The listing pass: scan all entries starting from an empty record list. -/
def listingPass (maxPapers : Nat) (entries : List Entry) : List PaperInfo :=
  scrapeLoop maxPapers entries []

/-! ## Detail enrichment (`enrich_paper_details`, lines 160-200) -/

/-- Lines 166-169: the detail-page URL used for enrichment — the
stashed `_paper_url`, or, when that is falsy and `pdf_url` is truthy,
`pdf_url` with every `/papers/` replaced by `/` and every `.pdf`
replaced by `.html`. -/
def derivePaperUrl (paper : PaperInfo) : Option String :=
  if !truthyOpt paper.paperUrl && truthyOpt paper.pdf_url then
    match paper.pdf_url with
    | some u => some (pyReplace (pyReplace u "/papers/" "/") ".pdf" ".html")
    | none => paper.paperUrl
  else paper.paperUrl

/-- Lines 175-177: the abstract container — the div with id
`abstract`, else the first div whose class matches `abstract`. -/
def abstractOf (soup : DetailPage) : Option String :=
  match soup.abstractById with
  | some t => some t
  | none => soup.abstractByClass

/-- Lines 174-187: on a successfully fetched detail page, set
`abstract` from the abstract container when one exists, and fill in
`pdf_url` from the page's first `.pdf` link only when `pdf_url` is
absent or falsy. -/
def processDetail (soup : DetailPage) (paper : PaperInfo) : PaperInfo :=
  let p1 :=
    match abstractOf soup with
    | some t => { paper with abstract := some t }
    | none => paper
  if truthyOpt p1.pdf_url then p1
  else
    match soup.anchors.find? (fun a => isPdfHref a.href) with
    | some a =>
      if strTruthy a.href then { p1 with pdf_url := some (urljoin siteBase a.href) } else p1
    | none => p1

/-- Lines 164-193, one iteration: determine a detail URL, fetch it when
truthy (a failed fetch leaves the record alone), then drop the
transient `_paper_url` in every case. -/
def enrichOne (fetch : String → Option DetailPage) (paper : PaperInfo) : PaperInfo :=
  let base :=
    match derivePaperUrl paper with
    | some u =>
      if strTruthy u then
        match fetch u with
        | some soup => processDetail soup paper
        | none => paper
      else paper
    | none => paper
  { base with paperUrl := none }

/-- The loop of lines 162-199: build `enriched_papers` by appending the
processed records in input order. -/
def enrichLoop (fetch : String → Option DetailPage) :
    List PaperInfo → List PaperInfo → List PaperInfo
  | acc, [] => acc
  | acc, p :: rest => enrichLoop fetch (acc ++ [enrichOne fetch p]) rest

/-- Lines 160-200: `enrich_paper_details`. -/
def enrich_paper_details (fetch : String → Option DetailPage)
    (papers : List PaperInfo) : List PaperInfo :=
  enrichLoop fetch [] papers

/-! ## `scrape_papers` (lines 108-158)

The page fetcher is passed in as data: `fetchMain` is the already
determined outcome of fetching the listing page, `fetchDetail` the
fetcher used by enrichment. -/

def scrape_papers (fetchMain : Option (List Entry))
    (fetchDetail : String → Option DetailPage)
    (fetch_abstracts : Bool) (max_papers : Nat) : List PaperInfo :=
  match fetchMain with
  | none => []
  | some entries =>
    let papers := listingPass max_papers entries
    if !papers.isEmpty && fetch_abstracts then enrich_paper_details fetchDetail papers
    else papers

/-! ## CSV export (`save_to_csv`, lines 202-225)

The csv library is the collaborator that serializes a row of cells
losslessly; a written file is modelled as its list of rows, each row a
list of cell strings.  `save_to_csv` writes nothing at all when the
record list is empty (line 204). -/

def csvHeader : List String :=
  ["title", "authors", "abstract", "pdf_url", "supplementary_url"]

/-- Lines 216-222: one CSV row; absent fields render as empty cells and
the authors list is joined with `"; "`. -/
def csvRowOf (p : PaperInfo) : List String :=
  [ p.title.getD ""
  , (match p.authors with
     | some l => String.mk (joinSemiSp (l.map String.toList))
     | none => "")
  , p.abstract.getD ""
  , p.pdf_url.getD ""
  , p.supplementary_url.getD "" ]

def save_to_csv (papers : List PaperInfo) : Option (List (List String)) :=
  if papers.isEmpty then none
  else some (csvHeader :: papers.map csvRowOf)

/-- Re-parsing procedure taken from the specification's round-trip
property: an empty cell denotes an absent field, the authors cell is
split back on `"; "`. -/
def parseRecordRow (row : List String) : PaperInfo :=
  let cell := fun i => (row.getD i "")
  { title := if (cell 0).toList.isEmpty then none else some (cell 0)
  , paperUrl := none
  , authors :=
      if (cell 1).toList.isEmpty then none
      else some ((splitSemiSp (cell 1).toList).map String.mk)
  , abstract := if (cell 2).toList.isEmpty then none else some (cell 2)
  , pdf_url := if (cell 3).toList.isEmpty then none else some (cell 3)
  , supplementary_url := if (cell 4).toList.isEmpty then none else some (cell 4) }

/-! ## Specification-side definitions for refinement comparisons -/

/-- Transform following the specification's words for C4: replace a
single `/papers/` path segment with `/`, and a `.pdf` suffix (only the
suffix) with `.html`. -/
def specSegmentSuffixDerive (u : String) : String :=
  let l := replaceFirstSeq "/papers/".toList "/".toList u.toList
  if ".pdf".toList.isSuffixOf l then
    String.mk (l.take (l.length - 4) ++ ".html".toList)
  else String.mk l

/-- Author-text fallback following the specification's words for C8:
strip the label only when it occurs at the very start of the text, then
split on commas. -/
def extractAuthorsFromTextSpec (text : String) : Option (List String) :=
  let t0 := text.toList
  let t :=
    if lblAuthors.isPrefixOf t0 then pyStrip (t0.drop lblAuthors.length)
    else if lblAuthor.isPrefixOf t0 then pyStrip (t0.drop lblAuthor.length)
    else if lblBy.isPrefixOf t0 then pyStrip (t0.drop lblBy.length)
    else t0
  if t.isEmpty then none
  else some (commaNames t)

/-- The emission condition of the listing pass: the title text the code
chooses (link text when a link exists, else the node's own text) is
non-empty. -/
def titleTruthyB (dt : DtElem) : Bool :=
  match dt.anchors.head? with
  | some a => strTruthy a.text
  | none => strTruthy dt.text

/-- The title text the code chooses for a `<dt>` node. -/
def titleTextOf (dt : DtElem) : String :=
  match dt.anchors.head? with
  | some a => a.text
  | none => dt.text

/-- A well-formed listing entry: one the extractor emits a record for. -/
def wellFormedEntry (e : Entry) : Prop := titleTruthyB e.1 = true

instance (e : Entry) : Decidable (wellFormedEntry e) := by
  unfold wellFormedEntry; infer_instance

/-! ## Helper lemmas -/

theorem strTruthy_iff (s : String) : strTruthy s = true ↔ s ≠ "" := by
  unfold strTruthy
  rcases s with ⟨l⟩
  cases l <;> simp [String.toList, String.ext_iff]

theorem enrichLoop_eq (fetch : String → Option DetailPage) :
    ∀ ps acc, enrichLoop fetch acc ps = acc ++ ps.map (enrichOne fetch) := by
  intro ps
  induction ps with
  | nil => intro acc; simp [enrichLoop]
  | cons p rest ih => intro acc; simp [enrichLoop, ih]

theorem enrich_eq_map (fetch : String → Option DetailPage) (ps : List PaperInfo) :
    enrich_paper_details fetch ps = ps.map (enrichOne fetch) := by
  simp [enrich_paper_details, enrichLoop_eq]

theorem enrichOne_of_fetch_none (fetch : String → Option DetailPage)
    (hf : ∀ u, fetch u = none) (p : PaperInfo) :
    enrichOne fetch p = { p with paperUrl := none } := by
  unfold enrichOne
  cases derivePaperUrl p with
  | none => rfl
  | some u =>
    simp only [hf u]
    split <;> rfl

theorem processDetail_pdf_of_truthy (soup : DetailPage) (p : PaperInfo)
    (h : truthyOpt p.pdf_url = true) :
    (processDetail soup p).pdf_url = p.pdf_url := by
  unfold processDetail
  cases habs : abstractOf soup <;> simp only [habs, h, if_pos]

theorem processDetail_abstract (soup : DetailPage) (p : PaperInfo) (t : String)
    (h : abstractOf soup = some t) :
    (processDetail soup p).abstract = some t := by
  unfold processDetail
  simp only [h]
  split
  · rfl
  · split
    · split <;> rfl
    · rfl

theorem enrichOne_pdf_of_truthy (fetch : String → Option DetailPage) (p : PaperInfo)
    (h : truthyOpt p.pdf_url = true) :
    (enrichOne fetch p).pdf_url = p.pdf_url := by
  unfold enrichOne
  cases derivePaperUrl p with
  | none => rfl
  | some u =>
    simp only
    split
    · cases hf : fetch u with
      | none => rfl
      | some soup => simpa using processDetail_pdf_of_truthy soup p h
    · rfl

theorem enrichOne_abstract (fetch : String → Option DetailPage) (p : PaperInfo)
    (u : String) (page : DetailPage) (t : String)
    (hu : derivePaperUrl p = some u) (hne : u ≠ "")
    (hf : fetch u = some page) (habs : abstractOf page = some t) :
    (enrichOne fetch p).abstract = some t := by
  unfold enrichOne
  rw [hu]
  simp only [(strTruthy_iff u).mpr hne, if_pos, hf]
  simpa using processDetail_abstract page p t habs

/-! ## Claims about the enrichment pass -/

/-- A page fetcher that fails on every URL. -/
def fetchFail : String → Option DetailPage := fun _ => none

/-- A detail page carrying an abstract and a `.pdf` link. -/
def pageW : DetailPage :=
  { abstractById := some "new abstract"
  , abstractByClass := none
  , anchors := [{ text := "pdf", href := "other_paper.pdf" }] }

/-- A page fetcher that succeeds on every URL with `pageW`. -/
def fetchPageW : String → Option DetailPage := fun _ => some pageW

/-- C3: with a fetcher that fails on every URL, `enrich_paper_details`
returns every record byte-for-byte unchanged except that the transient
`_paper_url` field is removed. -/
theorem c3_enrichment_pure_on_fetch_failure (fetch : String → Option DetailPage)
    (hf : ∀ u, fetch u = none) (ps : List PaperInfo) :
    enrich_paper_details fetch ps = ps.map (fun p => { p with paperUrl := none }) := by
  rw [enrich_eq_map]
  exact List.map_congr_left (fun p _ => enrichOne_of_fetch_none fetch hf p)

/-- Witness for C3 at a concrete already-enriched record. -/
theorem c3_witness :
    enrich_paper_details fetchFail
      [{ title := some "T", paperUrl := some "https://openaccess.thecvf.com/x.html",
         authors := some ["A"], pdf_url := some "https://openaccess.thecvf.com/x.pdf",
         abstract := some "abs" }] =
    [{ title := some "T", paperUrl := none,
       authors := some ["A"], pdf_url := some "https://openaccess.thecvf.com/x.pdf",
       abstract := some "abs" }] :=
  c3_enrichment_pure_on_fetch_failure fetchFail (fun _ => rfl) _

/-- C6: a record whose `pdf_url` is truthy before enrichment keeps it
unchanged, whatever the fetched detail page contains; the detail-page
`.pdf` link is used only when `pdf_url` was absent or empty. -/
theorem c6_pdf_url_never_overwritten (fetch : String → Option DetailPage)
    (ps : List PaperInfo) (i : Nat) (hi : i < ps.length)
    (h : truthyOpt (ps.getD i {}).pdf_url = true) :
    ((enrich_paper_details fetch ps).getD i {}).pdf_url = (ps.getD i {}).pdf_url := by
  rw [enrich_eq_map]
  have hlen : i < (ps.map (enrichOne fetch)).length := by simpa using hi
  rw [List.getD_eq_getElem _ _ hi] at h
  rw [List.getD_eq_getElem _ _ hlen, List.getD_eq_getElem _ _ hi, List.getElem_map]
  exact enrichOne_pdf_of_truthy fetch _ h

/-- A record that already carries a truthy `pdf_url`. -/
def paperW6 : PaperInfo :=
  { title := some "T", pdf_url := some "https://openaccess.thecvf.com/x.pdf",
    paperUrl := some "https://openaccess.thecvf.com/x.html" }

/-- Witness for C6: the fetched page offers `other_paper.pdf`, the
record's existing `pdf_url` survives. -/
theorem c6_witness :
    ((enrich_paper_details fetchPageW [paperW6]).getD 0 {}).pdf_url =
      some "https://openaccess.thecvf.com/x.pdf" :=
  c6_pdf_url_never_overwritten fetchPageW [paperW6] 0 (by decide) (by decide)

/-- C9: a successful enrichment fetch whose page has an abstract
container overwrites the record's abstract unconditionally, even when
one was already set. -/
theorem c9_abstract_overwritten (fetch : String → Option DetailPage)
    (ps : List PaperInfo) (i : Nat) (hi : i < ps.length)
    (u t : String) (page : DetailPage) (a : String)
    (_hset : (ps.getD i {}).abstract = some a)
    (hu : derivePaperUrl (ps.getD i {}) = some u) (hne : u ≠ "")
    (hf : fetch u = some page) (habs : abstractOf page = some t) :
    ((enrich_paper_details fetch ps).getD i {}).abstract = some t := by
  rw [enrich_eq_map]
  have hlen : i < (ps.map (enrichOne fetch)).length := by simpa using hi
  rw [List.getD_eq_getElem _ _ hlen, List.getElem_map]
  rw [List.getD_eq_getElem _ _ hi] at hu
  exact enrichOne_abstract fetch _ u page t hu hne hf habs

/-- A record that already carries an abstract and a stashed detail URL. -/
def paperW9 : PaperInfo :=
  { title := some "T", abstract := some "old",
    paperUrl := some "https://openaccess.thecvf.com/x.html" }

/-- Witness for C9: the record's `abstract` is `"old"` before and the
page's `"new abstract"` after enrichment. -/
theorem c9_witness :
    ((enrich_paper_details fetchPageW [paperW9]).getD 0 {}).abstract =
      some "new abstract" :=
  c9_abstract_overwritten fetchPageW [paperW9] 0 (by decide)
    "https://openaccess.thecvf.com/x.html" "new abstract" pageW "old"
    (by decide) (by decide) (by decide) rfl rfl

/-- C10: enrichment returns a list of the same length whose `i`-th
record is the enrichment of the `i`-th input record — nothing is
dropped, duplicated or reordered. -/
theorem c10_enrich_preserves_length_order (fetch : String → Option DetailPage)
    (ps : List PaperInfo) :
    (enrich_paper_details fetch ps).length = ps.length ∧
    ∀ i, i < ps.length →
      (enrich_paper_details fetch ps).getD i {} = enrichOne fetch (ps.getD i {}) := by
  rw [enrich_eq_map]
  refine ⟨by simp, fun i hi => ?_⟩
  have hlen : i < (ps.map (enrichOne fetch)).length := by simpa using hi
  rw [List.getD_eq_getElem _ _ hlen, List.getD_eq_getElem _ _ hi, List.getElem_map]

/-- Witness for C10 at a concrete two-record list. -/
theorem c10_witness :
    (enrich_paper_details fetchFail
        [{ title := some "A" }, { title := some "B" }]).getD 1 {} =
      enrichOne fetchFail (([{ title := some "A" }, { title := some "B" }] :
        List PaperInfo).getD 1 {}) :=
  (c10_enrich_preserves_length_order fetchFail _).2 1 (by decide)

/-! ## Claims about `scrape_papers` outcomes (C2) -/

/-- Counterexample for C2: a failed fetch of the listing page and a
listing pass that yields zero records give the caller the very same
outcome, the empty list — they are not distinguishable. -/
theorem c2_counterexample :
    scrape_papers none fetchFail true 100 = [] ∧
    scrape_papers (some []) fetchFail true 100 = [] :=
  ⟨rfl, rfl⟩

/-- C2 amended: when the listing pass yields zero records the caller
receives the empty list — exactly the same outcome as a fetch failure
of the whole listing page; the two cases are told apart only in log
output, never in the returned value. -/
theorem c2_amended_empty_equals_fetch_failure
    (entries : List Entry) (fetchDetail : String → Option DetailPage)
    (fa : Bool) (n : Nat) (h : listingPass n entries = []) :
    scrape_papers (some entries) fetchDetail fa n =
      scrape_papers none fetchDetail fa n := by
  unfold scrape_papers
  simp [h]

/-- Witness for C2 amended: a listing document whose single entry has
no title. -/
theorem c2_witness :
    scrape_papers (some [({ anchors := [], text := "" }, none)]) fetchFail true 100 =
      scrape_papers none fetchFail true 100 :=
  c2_amended_empty_equals_fetch_failure _ fetchFail true 100 (by decide)

/-! ## Lemmas about the extractor and the listing loop -/

theorem withAuthors_title (dd : Option DdElem) (i : PaperInfo) :
    (withAuthors dd i).title = i.title := by
  cases dd with
  | none => rfl
  | some d =>
    simp only [withAuthors]
    split
    · cases extractAuthorsFromText d.text <;> rfl
    · rfl

theorem withPdf_title (allA : List Anchor) (i : PaperInfo) :
    (withPdf allA i).title = i.title := by
  unfold withPdf
  split
  · split <;> rfl
  · rfl

theorem withSupp_title (allA : List Anchor) (i : PaperInfo) :
    (withSupp allA i).title = i.title := by
  unfold withSupp
  split
  · split <;> rfl
  · rfl

theorem titleInfo_title (dt : DtElem) :
    (titleInfo dt).title =
      match dt.anchors.head? with
      | some a => some a.text
      | none => if strTruthy dt.text then some dt.text else none := by
  unfold titleInfo
  cases dt.anchors.head? with
  | some a => simp only; split <;> rfl
  | none => simp only; split <;> rfl

theorem extract_title_chain (dt : DtElem) (dd : Option DdElem) :
    (withSupp (anchorsOf dt dd) (withPdf (anchorsOf dt dd)
      (withAuthors dd (titleInfo dt)))).title = (titleInfo dt).title := by
  rw [withSupp_title, withPdf_title, withAuthors_title]

theorem extract_paper_info_isSome (dt : DtElem) (dd : Option DdElem) :
    (extract_paper_info dt dd).isSome = titleTruthyB dt := by
  simp only [extract_paper_info, titleTruthyB]
  rw [extract_title_chain, titleInfo_title]
  cases dt.anchors.head? with
  | some a => cases h : strTruthy a.text <;> simp [truthyOpt, h]
  | none =>
    cases h : strTruthy dt.text <;> simp only [h, if_true, if_false] <;>
      simp [truthyOpt, h]

theorem titleTruthyB_iff (dt : DtElem) :
    titleTruthyB dt = true ↔ titleTextOf dt ≠ "" := by
  unfold titleTruthyB titleTextOf
  cases dt.anchors.head? <;> simp [strTruthy_iff]

theorem extract_paper_info_title (dt : DtElem) (dd : Option DdElem) (p : PaperInfo)
    (h : extract_paper_info dt dd = some p) :
    p.title = some (titleTextOf dt) ∧ titleTextOf dt ≠ "" := by
  have htb : titleTruthyB dt = true := by
    rw [← extract_paper_info_isSome dt dd, h]
    rfl
  refine ⟨?_, (titleTruthyB_iff dt).mp htb⟩
  simp only [extract_paper_info] at h
  split at h
  · cases h
    rw [extract_title_chain, titleInfo_title]
    unfold titleTruthyB at htb
    unfold titleTextOf
    cases hh : dt.anchors.head? with
    | some a => rfl
    | none =>
      rw [hh] at htb
      have htb' : strTruthy dt.text = true := htb
      simp [htb']
  · exact absurd h (by simp)

theorem scrapeLoop_stop (n : Nat) (es : List Entry) (acc : List PaperInfo)
    (h : n ≤ acc.length) : scrapeLoop n es acc = acc := by
  cases es with
  | nil => rfl
  | cons e rest => simp [scrapeLoop, h]

theorem scrapeLoop_length (n : Nat) :
    ∀ (es : List Entry) (acc : List PaperInfo), (∀ e ∈ es, wellFormedEntry e) →
      (scrapeLoop n es acc).length = min (acc.length + es.length) (max n acc.length) := by
  intro es
  induction es with
  | nil => intro acc _; simp only [scrapeLoop, List.length_nil]; omega
  | cons e rest ih =>
    intro acc h
    by_cases hn : n ≤ acc.length
    · rw [scrapeLoop_stop n _ acc hn]
      simp only [List.length_cons]
      omega
    · have hwf : titleTruthyB e.1 = true := h e (List.mem_cons_self e rest)
      simp only [scrapeLoop, if_neg hn]
      cases hx : extract_paper_info e.1 e.2 with
      | none =>
        exact absurd (extract_paper_info_isSome e.1 e.2) (by simp [hx, hwf])
      | some p =>
        rw [ih (acc ++ [p]) (fun e' he' => h e' (List.mem_cons_of_mem e he'))]
        simp only [List.length_append, List.length_cons, List.length_nil]
        omega

theorem scrapeLoop_titles (n : Nat) :
    ∀ (es : List Entry) (acc : List PaperInfo),
      (∀ q ∈ acc, ∃ t, q.title = some t ∧ t ≠ "") →
      ∀ p ∈ scrapeLoop n es acc, ∃ t, p.title = some t ∧ t ≠ "" := by
  intro es
  induction es with
  | nil => intro acc hacc p hp; exact hacc p hp
  | cons e rest ih =>
    intro acc hacc p hp
    by_cases hn : n ≤ acc.length
    · rw [scrapeLoop_stop n _ acc hn] at hp; exact hacc p hp
    · simp only [scrapeLoop, if_neg hn] at hp
      cases hx : extract_paper_info e.1 e.2 with
      | none => rw [hx] at hp; exact ih acc hacc p hp
      | some q =>
        rw [hx] at hp
        refine ih (acc ++ [q]) ?_ p hp
        intro r hr
        rcases List.mem_append.mp hr with hr | hr
        · exact hacc r hr
        · have : r = q := by simpa using hr
          subst this
          obtain ⟨h1, h2⟩ := extract_paper_info_title e.1 e.2 r hx
          exact ⟨titleTextOf e.1, h1, h2⟩

theorem scrapeLoop_append (n : Nat) :
    ∀ (es extra : List Entry) (acc : List PaperInfo),
      (∀ e ∈ es, wellFormedEntry e) → n ≤ acc.length + es.length →
      scrapeLoop n (es ++ extra) acc = scrapeLoop n es acc := by
  intro es
  induction es with
  | nil =>
    intro extra acc _ hn
    simp only [List.nil_append]
    exact scrapeLoop_stop n extra acc (by simpa using hn)
  | cons e rest ih =>
    intro extra acc h hn
    by_cases hle : n ≤ acc.length
    · rw [scrapeLoop_stop n _ acc hle, scrapeLoop_stop n _ acc hle]
    · have hwf : titleTruthyB e.1 = true := h e (List.mem_cons_self e rest)
      simp only [List.cons_append, scrapeLoop, if_neg hle]
      cases hx : extract_paper_info e.1 e.2 with
      | none =>
        exact absurd (extract_paper_info_isSome e.1 e.2) (by simp [hx, hwf])
      | some p =>
        refine ih extra (acc ++ [p]) (fun e' he' => h e' (List.mem_cons_of_mem e he')) ?_
        simp only [List.length_append, List.length_cons, List.length_nil]
        simp only [List.length_cons] at hn
        omega

/-- C1: on a listing document whose K entries are all well formed, the
listing pass with cap N emits exactly `min K N` records, each with a
non-empty title, and entries beyond the point where N records are
reached can never change the outcome. -/
theorem c1_listing_pass_bounded (entries : List Entry) (n : Nat)
    (hwf : ∀ e ∈ entries, wellFormedEntry e) :
    (listingPass n entries).length = min entries.length n ∧
    (∀ p ∈ listingPass n entries, ∃ t, p.title = some t ∧ t ≠ "") ∧
    ∀ extra, n ≤ entries.length →
      listingPass n (entries ++ extra) = listingPass n entries := by
  refine ⟨?_, ?_, ?_⟩
  · have := scrapeLoop_length n entries [] hwf
    simpa [listingPass, Nat.min_comm] using this
  · exact scrapeLoop_titles n entries [] (by simp)
  · intro extra hn
    exact scrapeLoop_append n entries extra [] hwf (by simpa using hn)

/-- Two well-formed listing entries. -/
def entriesW : List Entry :=
  [ ({ anchors := [{ text := "Paper One", href := "one.html" }], text := "Paper One" }, none)
  , ({ anchors := [], text := "Paper Two" },
     some { anchors := [], text := "A. Smith, B. Lee" }) ]

/-- Witness for C1: two well-formed entries, cap 1 — exactly one record. -/
theorem c1_witness : (listingPass 1 entriesW).length = min entriesW.length 1 :=
  (c1_listing_pass_bounded entriesW 1 (by decide)).1

/-! ## C5: title choice for a title node -/

/-- A title node whose link has empty text but whose own text is not empty. -/
def dtEmptyLinkText : DtElem :=
  { anchors := [{ text := "", href := "content/paper.html" }], text := "Fallback Title" }

/-- Counterexample for C5: with a link of empty text the entry is
skipped even though the node's own text is non-empty — the code never
falls back to the node text once a link exists. -/
theorem c5_counterexample :
    extract_paper_info dtEmptyLinkText none = none ∧ dtEmptyLinkText.text ≠ "" := by
  exact ⟨by decide, by decide⟩

/-- C5 amended: the extractor chooses the link text when a link is
present, else the node's own text, and emits a record exactly when that
chosen text is non-empty; a node with a link of empty text is skipped
regardless of its own text. -/
theorem c5_title_choice (dt : DtElem) (dd : Option DdElem) :
    ((extract_paper_info dt dd).isSome = true ↔ titleTextOf dt ≠ "") ∧
    ∀ p, extract_paper_info dt dd = some p → p.title = some (titleTextOf dt) := by
  constructor
  · rw [extract_paper_info_isSome]
    exact titleTruthyB_iff dt
  · intro p hp
    exact (extract_paper_info_title dt dd p hp).1

/-- A title node with no link and non-empty own text. -/
def dtW5 : DtElem := { anchors := [], text := "Solo Title" }

/-- Witness for C5 amended: a linkless node with non-empty text emits. -/
theorem c5_witness : (extract_paper_info dtW5 none).isSome = true :=
  (c5_title_choice dtW5 none).1.mpr (by decide)

/-! ## C8: the author-label stripping fallback -/

/-- A detail node with no links whose text mentions `Authors:` mid-way. -/
def ddW8 : DdElem := { anchors := [], text := "X, Authors: Y, Z" }

/-- Counterexample for C8: the code strips at the first occurrence of
the label anywhere in the text, discarding everything before it, while
the specified leading-label stripping would keep the prefix. -/
theorem c8_counterexample :
    (withAuthors (some ddW8) {}).authors = some ["Y", "Z"] ∧
    extractAuthorsFromTextSpec ddW8.text = some ["X", "Authors: Y", "Z"] := by
  exact ⟨by decide, by decide⟩

theorem afterFirst_label (p : Char) (ps : List Char) :
    ∀ (pre post : List Char), p ∉ pre →
      afterFirst (p :: ps) (pre ++ (p :: ps) ++ post) = some post := by
  intro pre
  induction pre with
  | nil =>
    intro post _
    simp only [List.nil_append]
    have hpre : (p :: ps).isPrefixOf ((p :: ps) ++ post) = true :=
      List.isPrefixOf_iff_prefix.mpr (List.prefix_append _ _)
    simp only [List.cons_append] at hpre ⊢
    simp only [afterFirst, hpre, if_true]
    simp only [List.length_cons, List.drop_succ_cons]
    rw [List.drop_left]
  | cons c pre' ih =>
    intro post h
    have hcp : p ≠ c := fun he => h (he ▸ List.mem_cons_self c pre')
    have hmem : p ∉ pre' := fun hm => h (List.mem_cons_of_mem c hm)
    have hstep := ih post hmem
    simp only [List.cons_append, List.append_assoc] at hstep ⊢
    have hpre : (p :: ps).isPrefixOf (c :: (pre' ++ (p :: (ps ++ post)))) = false := by
      simp [List.isPrefixOf, beq_eq_false_iff_ne.mpr hcp]
    simp only [afterFirst, hpre, Bool.false_eq_true, if_false]
    exact hstep

/-- C8 amended: with no links in the detail node, author extraction
strips at the FIRST occurrence of the `Authors:` label anywhere in the
text — everything before and including the label is discarded — then
whitespace-strips the remainder and splits it on commas, stripping each
name and preserving document order.  (Here stated for any text written
`pre ++ "Authors:" ++ post` with no `'A'` in `pre`, which pins the
first occurrence.) -/
theorem c8_label_strip_first_occurrence (pre post : List Char) (i : PaperInfo)
    (h : 'A' ∉ pre) :
    withAuthors (some { anchors := [], text := String.mk (pre ++ lblAuthors ++ post) }) i =
      (if (pyStrip post).isEmpty then i
       else { i with authors := some (commaNames (pyStrip post)) }) := by
  have hAf : afterFirst lblAuthors (pre ++ lblAuthors ++ post) = some post :=
    afterFirst_label 'A' ("uthors:".toList) pre post h
  simp only [withAuthors, List.isEmpty_nil, if_true]
  have hx : extractAuthorsFromText (String.mk (pre ++ lblAuthors ++ post)) =
      (if (pyStrip post).isEmpty then none
       else some (commaNames (pyStrip post))) := by
    unfold extractAuthorsFromText stripLabel
    rw [show (String.mk (pre ++ lblAuthors ++ post)).toList = pre ++ lblAuthors ++ post from rfl]
    rw [hAf]
  rw [hx]
  by_cases he : (pyStrip post).isEmpty
  · simp [he]
  · simp [he]

/-- Witness for C8 amended: text `"xx Authors: B. Lee, C. Chen"` — the
`"xx "` before the label is discarded, the names after it split out. -/
theorem c8_witness :
    withAuthors
      (some ⟨[], String.mk ("xx ".toList ++ lblAuthors ++ " B. Lee, C. Chen".toList)⟩) {} =
      (if (pyStrip " B. Lee, C. Chen".toList).isEmpty then ({} : PaperInfo)
       else { ({} : PaperInfo) with
         authors := some (commaNames (pyStrip " B. Lee, C. Chen".toList)) }) :=
  c8_label_strip_first_occurrence ("xx ".toList) (" B. Lee, C. Chen".toList) {} (by decide)

/-! ## C4: the pdf-to-detail-page URL transform -/

theorem toList_append (a b : String) : (a ++ b).toList = a.toList ++ b.toList := by
  rcases a with ⟨la⟩
  rcases b with ⟨lb⟩
  rfl

theorem isPrefixOf_eq_false_of_mismatch :
    ∀ (a b : List Char), mismatchWithin a b = true →
      ∀ rest, a.isPrefixOf (b ++ rest) = false := by
  intro a
  induction a with
  | nil => intro b h rest; cases b <;> simp [mismatchWithin] at h
  | cons x as ih =>
    intro b h rest
    cases b with
    | nil => simp [mismatchWithin] at h
    | cons y bs =>
      simp only [mismatchWithin, Bool.or_eq_true, bne_iff_ne] at h
      simp only [List.cons_append, List.isPrefixOf]
      rcases h with h | h
      · simp [beq_eq_false_iff_ne.mpr h]
      · simp [ih bs h rest]

theorem replaceSeq_append_clean (p : Char) (ps repl : List Char) :
    ∀ (pre rest : List Char), cleanFor (p :: ps) pre = true →
      replaceSeq (p :: ps) repl (pre ++ rest) = pre ++ replaceSeq (p :: ps) repl rest := by
  intro pre
  induction pre with
  | nil => intro rest _; rfl
  | cons c l ih =>
    intro rest h
    simp only [cleanFor, Bool.and_eq_true] at h
    obtain ⟨hm, hc⟩ := h
    have hpre : (p :: ps).isPrefixOf (c :: (l ++ rest)) = false := by
      have := isPrefixOf_eq_false_of_mismatch (p :: ps) (c :: l) hm rest
      simpa using this
    simp only [List.cons_append]
    rw [replaceSeq]
    simp only [hpre, Bool.false_eq_true, if_false]
    rw [ih rest hc]

theorem replaceSeq_cons_match (p : Char) (ps repl rest : List Char) :
    replaceSeq (p :: ps) repl ((p :: ps) ++ rest) = repl ++ replaceSeq (p :: ps) repl rest := by
  have hpre : (p :: ps).isPrefixOf ((p :: ps) ++ rest) = true :=
    List.isPrefixOf_iff_prefix.mpr (List.prefix_append _ _)
  simp only [List.cons_append] at hpre ⊢
  rw [replaceSeq]
  simp only [hpre, if_true]
  rw [List.drop_left]

theorem replaceSeq_append_of_head_notMem (p : Char) (ps repl : List Char) :
    ∀ (l rest : List Char), p ∉ l →
      replaceSeq (p :: ps) repl (l ++ rest) = l ++ replaceSeq (p :: ps) repl rest := by
  intro l
  induction l with
  | nil => intro rest _; rfl
  | cons c l' ih =>
    intro rest h
    have hcp : p ≠ c := fun he => h (he ▸ List.mem_cons_self c l')
    have hmem : p ∉ l' := fun hm => h (List.mem_cons_of_mem c hm)
    have hpre : (p :: ps).isPrefixOf (c :: (l' ++ rest)) = false := by
      simp [List.isPrefixOf, beq_eq_false_iff_ne.mpr hcp]
    simp only [List.cons_append]
    rw [replaceSeq]
    simp only [hpre, Bool.false_eq_true, if_false]
    rw [ih rest hmem]

theorem replaceSeq_nil (p : Char) (ps repl : List Char) :
    replaceSeq (p :: ps) repl [] = [] := by
  rw [replaceSeq]

theorem replaceSeq_of_head_notMem (p : Char) (ps repl : List Char)
    (l : List Char) (h : p ∉ l) : replaceSeq (p :: ps) repl l = l := by
  have := replaceSeq_append_of_head_notMem p ps repl l [] h
  simpa [replaceSeq_nil] using this

theorem replaceSeq_self (p : Char) (ps repl : List Char) :
    replaceSeq (p :: ps) repl (p :: ps) = repl := by
  have h := replaceSeq_cons_match p ps repl []
  simpa [replaceSeq_nil] using h

theorem mk_toList (s : String) : String.mk s.toList = s := rfl

/-- Counterexample for C4: on `pdfUrl = "https://h/x.pdfy.pdf"` the
code's transform also rewrites the non-suffix `.pdf` occurrence, while
the specified segment-and-suffix transform leaves it alone. -/
theorem c4_counterexample :
    derivePaperUrl { pdf_url := some "https://h/x.pdfy.pdf" } =
      some "https://h/x.htmly.html" ∧
    specSegmentSuffixDerive "https://h/x.pdfy.pdf" = "https://h/x.pdfy.html" ∧
    ("https://h/x.htmly.html" : String) ≠ "https://h/x.pdfy.html" := by
  refine ⟨?_, by decide, by decide⟩
  have h1 : pyReplace "https://h/x.pdfy.pdf" "/papers/" "/" = "https://h/x.pdfy.pdf" := by
    unfold pyReplace
    rw [show ("/papers/").toList = '/' :: "papers/".toList from rfl]
    have key1 : replaceSeq ('/' :: "papers/".toList) ("/".toList)
        ("https://h/x.pdfy.pdf".toList) = "https://h/x.pdfy.pdf".toList := by
      have h := replaceSeq_append_clean '/' ("papers/".toList) ("/".toList)
        ("https://h/x.pdfy.pdf".toList) [] (by decide)
      simpa [replaceSeq_nil] using h
    rw [key1, mk_toList]
  have h2 : pyReplace "https://h/x.pdfy.pdf" ".pdf" ".html" = "https://h/x.htmly.html" := by
    unfold pyReplace
    rw [show (".pdf").toList = '.' :: "pdf".toList from rfl]
    have key2 : replaceSeq ('.' :: "pdf".toList) (".html".toList)
        ("https://h/x".toList ++ (('.' :: "pdf".toList) ++
          ("y".toList ++ ('.' :: "pdf".toList)))) =
        "https://h/x".toList ++ (".html".toList ++ ("y".toList ++ ".html".toList)) := by
      rw [replaceSeq_append_clean '.' ("pdf".toList) (".html".toList) ("https://h/x".toList)
        _ (by decide)]
      rw [replaceSeq_cons_match '.' ("pdf".toList) (".html".toList)]
      rw [replaceSeq_append_of_head_notMem '.' ("pdf".toList) (".html".toList)
        ("y".toList) _ (by decide)]
      rw [replaceSeq_self]
    rw [show ("https://h/x.pdfy.pdf".toList : List Char) =
      "https://h/x".toList ++ (('.' :: "pdf".toList) ++
        ("y".toList ++ ('.' :: "pdf".toList))) from by decide]
    rw [key2]
    decide
  have hcond : derivePaperUrl { pdf_url := some "https://h/x.pdfy.pdf" } =
      some (pyReplace (pyReplace "https://h/x.pdfy.pdf" "/papers/" "/") ".pdf" ".html") := rfl
  rw [hcond, h1, h2]

/-- The CVF pdf directory and detail-page directory for CVPR 2024. -/
def cvfPapersBase : String := "https://openaccess.thecvf.com/content/CVPR2024/papers/"

def cvfPagesBase : String := "https://openaccess.thecvf.com/content/CVPR2024/"

/-- C4 amended: the code transform replaces EVERY occurrence of
`/papers/` and EVERY occurrence of `.pdf`, not only one path segment
and the suffix; restricted to the well-behaved URLs the site actually
serves — a `/papers/` directory followed by a stem free of `/` and `.`
and a final `.pdf` — it coincides with the specified segment-and-suffix
transform and yields the detail-page URL. -/
theorem c4_derive_on_cvf_urls (stem : String)
    (h1 : '/' ∉ stem.toList) (h2 : '.' ∉ stem.toList) :
    derivePaperUrl { pdf_url := some (cvfPapersBase ++ stem ++ ".pdf") } =
      some (cvfPagesBase ++ stem ++ ".html") := by
  have hnotin : '/' ∉ stem.toList ++ ('.' :: "pdf".toList) := by
    intro hmem
    rcases List.mem_append.mp hmem with hm | hm
    · exact h1 hm
    · revert hm; decide
  have hcond : derivePaperUrl { pdf_url := some (cvfPapersBase ++ stem ++ ".pdf") } =
      some (pyReplace (pyReplace (cvfPapersBase ++ stem ++ ".pdf") "/papers/" "/")
        ".pdf" ".html") := by
    unfold derivePaperUrl
    have htr : truthyOpt (({ pdf_url := some (cvfPapersBase ++ stem ++ ".pdf") } :
        PaperInfo).pdf_url) = true := by
      simp only [truthyOpt, strTruthy, toList_append, Bool.not_eq_true']
      rw [show cvfPapersBase.toList = 'h' :: "ttps://openaccess.thecvf.com/content/CVPR2024/papers/".toList from rfl]
      simp
    rw [htr]
    rfl
  rw [hcond]
  have step1 : pyReplace (cvfPapersBase ++ stem ++ ".pdf") "/papers/" "/" =
      String.mk (cvfPagesBase.toList ++ (stem.toList ++ ('.' :: "pdf".toList))) := by
    unfold pyReplace
    rw [show ("/papers/").toList = '/' :: "papers/".toList from rfl]
    rw [show ((cvfPapersBase ++ stem ++ ".pdf").toList : List Char) =
      "https://openaccess.thecvf.com/content/CVPR2024".toList ++
        (('/' :: "papers/".toList) ++ (stem.toList ++ ('.' :: "pdf".toList))) from by
      rw [toList_append, toList_append]
      rw [show cvfPapersBase.toList =
        "https://openaccess.thecvf.com/content/CVPR2024".toList ++
          ('/' :: "papers/".toList) from by decide]
      simp [List.append_assoc]]
    rw [replaceSeq_append_clean '/' ("papers/".toList) ("/".toList) _ _ (by decide)]
    rw [replaceSeq_cons_match '/' ("papers/".toList) ("/".toList)]
    rw [replaceSeq_append_of_head_notMem '/' ("papers/".toList) ("/".toList)
      (stem.toList) _ h1]
    rw [replaceSeq_of_head_notMem '/' ("papers/".toList) ("/".toList)
      ('.' :: "pdf".toList) (by decide)]
    congr 1
  rw [step1]
  have step2 : pyReplace (String.mk (cvfPagesBase.toList ++
      (stem.toList ++ ('.' :: "pdf".toList)))) ".pdf" ".html" =
      cvfPagesBase ++ stem ++ ".html" := by
    unfold pyReplace
    rw [show (".pdf").toList = '.' :: "pdf".toList from rfl]
    rw [show ((String.mk (cvfPagesBase.toList ++ (stem.toList ++ ('.' :: "pdf".toList)))).toList :
      List Char) = cvfPagesBase.toList ++ (stem.toList ++ ('.' :: "pdf".toList)) from rfl]
    rw [replaceSeq_append_clean '.' ("pdf".toList) (".html".toList) (cvfPagesBase.toList)
      _ (by decide)]
    rw [replaceSeq_append_of_head_notMem '.' ("pdf".toList) (".html".toList)
      (stem.toList) _ h2]
    rw [replaceSeq_self]
    rw [show (cvfPagesBase.toList ++ (stem.toList ++ ".html".toList) : List Char) =
      ((cvfPagesBase ++ stem ++ ".html").toList : List Char) from by
      rw [toList_append, toList_append, List.append_assoc]]
    rw [mk_toList]
  rw [step2]

/-- A realistic CVF paper-file stem. -/
def stemW : String := "Smith_Method_CVPR_2024_paper"

/-- Witness for C4 amended at a realistic CVF paper stem. -/
theorem c4_witness :
    derivePaperUrl { pdf_url := some (cvfPapersBase ++ stemW ++ ".pdf") } =
      some (cvfPagesBase ++ stemW ++ ".html") :=
  c4_derive_on_cvf_urls stemW (by decide) (by decide)

/-! ## C7: CSV export round-trip -/

theorem toList_eq_nil_iff (s : String) : s.toList = [] ↔ s = "" := by
  rcases s with ⟨l⟩
  cases l <;> simp [String.toList, String.ext_iff]

theorem splitSemiSp_of_noSemiSp : ∀ a : List Char, noSemiSp a = true → splitSemiSp a = [a] := by
  intro a
  induction a with
  | nil => intro _; rfl
  | cons c a' ih =>
    intro h
    cases a' with
    | nil => rfl
    | cons c2 a'' =>
      simp only [noSemiSp, Bool.and_eq_true] at h
      obtain ⟨h1, h2⟩ := h
      have hn : ¬(c = ';' ∧ c2 = ' ') := by
        rintro ⟨e1, e2⟩
        subst e1; subst e2
        simp at h1
      simp only [splitSemiSp, if_neg hn]
      rw [ih h2]

theorem splitSemiSp_sep_append :
    ∀ (a b : List Char), noSemiSp a = true →
      splitSemiSp (a ++ ';' :: ' ' :: b) = a :: splitSemiSp b := by
  intro a
  induction a with
  | nil => intro b _; simp [splitSemiSp]
  | cons c a' ih =>
    intro b h
    cases a' with
    | nil =>
      have hn : ¬(c = ';' ∧ (';' : Char) = ' ') := by rintro ⟨_, e⟩; exact absurd e (by decide)
      simp only [List.cons_append, List.nil_append, splitSemiSp, if_neg hn]
      simp
    | cons c2 a'' =>
      simp only [noSemiSp, Bool.and_eq_true] at h
      obtain ⟨h1, h2⟩ := h
      have hn : ¬(c = ';' ∧ c2 = ' ') := by
        rintro ⟨e1, e2⟩
        subst e1; subst e2
        simp at h1
      have hstep := ih b h2
      simp only [List.cons_append] at hstep ⊢
      simp only [splitSemiSp, if_neg hn]
      rw [hstep]

theorem splitSemiSp_joinSemiSp :
    ∀ L : List (List Char), L ≠ [] → (∀ a ∈ L, noSemiSp a = true) →
      splitSemiSp (joinSemiSp L) = L := by
  intro L
  induction L with
  | nil => intro h _; exact absurd rfl h
  | cons a L' ih =>
    intro _ h
    cases L' with
    | nil =>
      simp only [joinSemiSp]
      exact splitSemiSp_of_noSemiSp a (h a (List.mem_cons_self a []))
    | cons b L'' =>
      simp only [joinSemiSp]
      rw [splitSemiSp_sep_append a _ (h a (List.mem_cons_self a (b :: L'')))]
      rw [ih (by simp) (fun x hx => h x (List.mem_cons_of_mem a hx))]

theorem joinSemiSp_ne_nil (L : List (List Char)) (h0 : L ≠ []) (h1 : L ≠ [[]]) :
    joinSemiSp L ≠ [] := by
  cases L with
  | nil => exact absurd rfl h0
  | cons a L' =>
    cases L' with
    | nil =>
      simp only [joinSemiSp]
      intro he
      exact h1 (by rw [he])
    | cons b L'' =>
      simp only [joinSemiSp]
      simp

/-- Author lists that survive the join/split round-trip: absent, or
non-empty, not the single empty name, and free of the `"; "` separator
inside any name. -/
def authorsSafe : Option (List String) → Prop
  | none => True
  | some l => l ≠ [] ∧ l ≠ [""] ∧ ∀ a ∈ l, noSemiSp a.toList = true

instance authorsSafe.inst : (o : Option (List String)) → Decidable (authorsSafe o)
  | none => .isTrue trivial
  | some _ => inferInstanceAs (Decidable (_ ∧ _ ∧ _))

/-- The conditions under which the CSV round-trip is faithful: no
present-but-empty optional string field, and a safe authors list. -/
def exportSafe (p : PaperInfo) : Prop :=
  p.title ≠ some "" ∧ authorsSafe p.authors ∧
  p.pdf_url ≠ some "" ∧ p.supplementary_url ≠ some ""

instance (p : PaperInfo) : Decidable (exportSafe p) :=
  inferInstanceAs (Decidable (_ ∧ _ ∧ _ ∧ _))

/-- A record whose single author name contains the join separator. -/
def paperC7 : PaperInfo := { title := some "T", authors := some ["a; b"] }

/-- Counterexample for C7: the author name `"a; b"` is joined into the
authors cell and splits back into two names — the round trip does not
reconstruct the same ordered list for every record. -/
theorem c7_counterexample :
    save_to_csv [paperC7] = some [csvHeader, csvRowOf paperC7] ∧
    (parseRecordRow (csvRowOf paperC7)).authors = some ["a", "b"] ∧
    paperC7.authors = some ["a; b"] ∧
    (some ["a", "b"] : Option (List String)) ≠ some ["a; b"] := by
  refine ⟨rfl, by decide, rfl, by decide⟩

theorem string_isEmpty_toList_false (s : String) (h : s ≠ "") : s.toList.isEmpty = false := by
  rcases hb : s.toList.isEmpty with _ | _
  · rfl
  · exact absurd ((toList_eq_nil_iff s).mp (List.isEmpty_iff.mp hb)) h

/-- The authors cell written by `csvRowOf`. -/
def authorsCell (o : Option (List String)) : String :=
  match o with
  | some l => String.mk (joinSemiSp (l.map String.toList))
  | none => ""

theorem parseRow_title (p : PaperInfo) :
    (parseRecordRow (csvRowOf p)).title =
      (if (p.title.getD "").toList.isEmpty then none else some (p.title.getD "")) := rfl

theorem parseRow_authors (p : PaperInfo) :
    (parseRecordRow (csvRowOf p)).authors =
      (if (authorsCell p.authors).toList.isEmpty then none
       else some ((splitSemiSp (authorsCell p.authors).toList).map String.mk)) := rfl

theorem parseRow_pdf (p : PaperInfo) :
    (parseRecordRow (csvRowOf p)).pdf_url =
      (if (p.pdf_url.getD "").toList.isEmpty then none else some (p.pdf_url.getD "")) := rfl

theorem parseRow_supp (p : PaperInfo) :
    (parseRecordRow (csvRowOf p)).supplementary_url =
      (if (p.supplementary_url.getD "").toList.isEmpty then none
       else some (p.supplementary_url.getD "")) := rfl

theorem parse_opt_cell (o : Option String) (h : o ≠ some "") :
    (if (o.getD "").toList.isEmpty then none else some (o.getD "")) = o := by
  cases o with
  | none => simp
  | some v =>
    have hv : v ≠ "" := fun he => h (by rw [he])
    have hd : ¬ v.data = [] := fun he => hv ((toList_eq_nil_iff v).mp he)
    simp [hd]

theorem parse_csvRow (p : PaperInfo) (h : exportSafe p) :
    (parseRecordRow (csvRowOf p)).title = p.title ∧
    (parseRecordRow (csvRowOf p)).authors = p.authors ∧
    (parseRecordRow (csvRowOf p)).pdf_url = p.pdf_url ∧
    (parseRecordRow (csvRowOf p)).supplementary_url = p.supplementary_url := by
  obtain ⟨ht, ha, hp, hs⟩ := h
  refine ⟨?_, ?_, ?_, ?_⟩
  · rw [parseRow_title, parse_opt_cell p.title ht]
  · rw [parseRow_authors]
    cases hx : p.authors with
    | none => simp [authorsCell]
    | some l =>
      rw [hx] at ha
      obtain ⟨hl0, hl1, hl2⟩ := ha
      have hL0 : l.map String.toList ≠ [] := by simpa using hl0
      have hL1 : l.map String.toList ≠ [[]] := by
        intro he
        cases l with
        | nil => simp at he
        | cons s l' =>
          cases l' with
          | nil =>
            simp only [List.map_cons, List.map_nil, List.cons.injEq, and_true] at he
            exact hl1 (by rw [show s = "" from (toList_eq_nil_iff s).mp he])
          | cons _ _ => simp at he
      have hne : joinSemiSp (l.map String.toList) ≠ [] := joinSemiSp_ne_nil _ hL0 hL1
      have hcl : (authorsCell (some l)).toList = joinSemiSp (l.map String.toList) := rfl
      rw [hcl]
      have hemp : (joinSemiSp (l.map String.toList)).isEmpty = false := by
        rcases hb : (joinSemiSp (l.map String.toList)).isEmpty with _ | _
        · rfl
        · exact absurd (List.isEmpty_iff.mp hb) hne
      simp only [hemp, Bool.false_eq_true, if_false]
      rw [splitSemiSp_joinSemiSp _ hL0 (by
        intro x hxm
        rcases List.mem_map.mp hxm with ⟨s, hsm, rfl⟩
        exact hl2 s hsm)]
      rw [List.map_map]
      rw [show (String.mk ∘ String.toList) = id from funext fun s => mk_toList s]
      simp
  · rw [parseRow_pdf, parse_opt_cell p.pdf_url hp]
  · rw [parseRow_supp, parse_opt_cell p.supplementary_url hs]

/-- C7 amended: the round trip through `save_to_csv` reconstructs
`title`, the ordered `authors` list, `pdfUrl` and `supplementaryUrl`
for every record whose optional fields are absent-or-non-empty and
whose authors list is non-empty, not the single empty name, and free of
the `"; "` separator inside names; an author name containing `"; "` (or
a present-but-empty field) breaks the correspondence. -/
theorem c7_roundtrip (ps : List PaperInfo) (rows : List (List String))
    (hrows : save_to_csv ps = some rows)
    (hok : ∀ p ∈ ps, exportSafe p) :
    List.Forall₂ (fun row p =>
      (parseRecordRow row).title = p.title ∧
      (parseRecordRow row).authors = p.authors ∧
      (parseRecordRow row).pdf_url = p.pdf_url ∧
      (parseRecordRow row).supplementary_url = p.supplementary_url) rows.tail ps := by
  unfold save_to_csv at hrows
  split at hrows
  · exact absurd hrows (by simp)
  · cases hrows
    simp only [List.tail_cons]
    rw [List.forall₂_map_left_iff]
    exact List.forall₂_same.mpr (fun p hp => parse_csvRow p (hok p hp))

/-- A record satisfying the round-trip conditions. -/
def paperSafeW : PaperInfo :=
  { title := some "T", authors := some ["A. Smith", "B. Lee"],
    pdf_url := some "https://openaccess.thecvf.com/p.pdf" }

/-- Witness for C7 amended at a concrete safe record. -/
theorem c7_witness :
    List.Forall₂ (fun row p =>
      (parseRecordRow row).title = p.title ∧
      (parseRecordRow row).authors = p.authors ∧
      (parseRecordRow row).pdf_url = p.pdf_url ∧
      (parseRecordRow row).supplementary_url = p.supplementary_url)
      ([csvHeader, csvRowOf paperSafeW].tail) [paperSafeW] :=
  c7_roundtrip [paperSafeW] [csvHeader, csvRowOf paperSafeW] rfl (by decide)

end CVPRScraper
